import Mathlib

/-!
Shallow embedding of the inventory-consistency core of the
Al-waqas-inventory server (Node/Express/Mongoose), covering:

* the Inventory store and the upsert-increment adjustment performed by the
  purchase/sale persistence hooks (`purchaseSchema.post('save')`,
  `saleSchema.post('save')`, and the corresponding delete hooks);
* the FIFO depletion walk over Purchase journal rows performed on sale;
* the `withRetry` write-conflict retry helper of `purchase.model.js`;
* the low-stock inventory query (`getLowStock`, final variant);
* the vendor ledger balance computation (`ledger.controller.js`);
* the controller-level stock check of `createSale` / `createBulkSales`.

Modelling conventions: Mongo ObjectIds are `Nat`; a nullable color is
`Option Nat`; JS timestamps are `Nat` milliseconds and `setHours(0,0,0,0)`
is flooring to a day boundary; JS numbers are idealised as exact integers
(`Int`) — every quantity and balance appearing in the claims is integral.
Mongo collections are Lean lists in natural (insertion) order; `findOne`
returns the first match in that order, `$inc` by id updates the single
document carrying that id, and an upsert materialises the filter's equality
fields plus schema defaults.
-/

/-- A persisted Inventory row (`inventory.model.js`): keyed by
(product, color), with `quantity` and `minStockLevel` (schema default 5). -/
structure InvRow where
  product : Nat
  color : Option Nat
  quantity : Int
  minStockLevel : Int
deriving DecidableEq, Repr

/-- Schema default for `minStockLevel` in `inventory.model.js`. -/
def defaultMinStock : Int := 5

/-- The filter built by the purchase/sale hooks:
`{ product: doc.product }` plus `color: doc.color` only when `doc.color`
is truthy (non-null).  A filter without a color condition matches rows of
any color. -/
def invMatches (p : Nat) (c : Option Nat) (r : InvRow) : Bool :=
  r.product == p &&
    (match c with
     | none => true
     | some cc => r.color == some cc)

/-- `Inventory.findOneAndUpdate(filter, { $inc: { quantity: d }, ... },
{ upsert })`: increment the first matching row; when none matches and
`upsert` is set, create a row from the filter's fields with
`quantity = 0 + d` and the default `minStockLevel`. -/
def invAdjust (p : Nat) (c : Option Nat) (d : Int) (upsert : Bool) :
    List InvRow → List InvRow
  | [] => if upsert then [⟨p, c, d, defaultMinStock⟩] else []
  | r :: rs =>
    if invMatches p c r then { r with quantity := r.quantity + d } :: rs
    else r :: invAdjust p c d upsert rs

/-- A Purchase journal row (`purchase.model.js`), restricted to the fields
the inventory-consistency claims read: id, date, the (product, color) key
and the remaining (FIFO-depleted) quantity. -/
structure PRow where
  id : Nat
  date : Nat
  product : Nat
  color : Option Nat
  quantity : Int
deriving DecidableEq, Repr

/-- The purchase-side filter `{ product }` plus `color` when truthy. -/
def pMatches (p : Nat) (c : Option Nat) (r : PRow) : Bool :=
  r.product == p &&
    (match c with
     | none => true
     | some cc => r.color == some cc)

/-- A Sale journal row (`sale.model.js`), restricted likewise. -/
structure SRow where
  id : Nat
  date : Nat
  product : Nat
  color : Option Nat
  quantity : Int
deriving DecidableEq, Repr

/-- Stable insertion step for an ascending sort with strict comparison
`lt`: the new element goes before the first element not strictly below it,
so equal keys keep their original relative order. -/
def insLt (lt : α → α → Bool) (x : α) : List α → List α
  | [] => [x]
  | y :: ys => if lt y x then y :: insLt lt x ys else x :: y :: ys

/-- Stable ascending insertion sort, modelling Mongo's `.sort(...)` on the
natural-order collection. -/
def sortLt (lt : α → α → Bool) : List α → List α
  | [] => []
  | x :: xs => insLt lt x (sortLt lt xs)

/-- Ascending-by-`date` ordering of purchase rows (`.sort({ date: 1 })`),
oldest first, ties in insertion order. -/
def sortByDate (l : List PRow) : List PRow :=
  sortLt (fun a b => a.date < b.date) l

/-- The FIFO walk of `saleSchema.post('save')`: for each fetched purchase
row in date order, stop if nothing remains to deplete, otherwise deduct
`min(remainingQty, purchase.quantity)`; returns the per-id deductions
issued as `$inc` updates. -/
def fifoDeducts : Int → List PRow → List (Nat × Int)
  | _, [] => []
  | rem, r :: rs =>
    if rem ≤ 0 then []
    else (r.id, min rem r.quantity) :: fifoDeducts (rem - min rem r.quantity) rs

/-- The value of `remainingQty` after the FIFO walk — positive iff the
hook logs the shortfall warning. -/
def fifoRemaining : Int → List PRow → Int
  | rem, [] => rem
  | rem, r :: rs =>
    if rem ≤ 0 then rem
    else fifoRemaining (rem - min rem r.quantity) rs

/-- `Purchase.findByIdAndUpdate(id, { $inc: { quantity: d } })`: increment
the quantity of the (unique) row carrying `id`. -/
def pIncById (i : Nat) (d : Int) : List PRow → List PRow
  | [] => []
  | r :: rs =>
    if r.id == i then { r with quantity := r.quantity + d } :: rs
    else r :: pIncById i d rs

/-- Apply the sequence of FIFO `$inc` decrements to the purchase store. -/
def applyDeducts (ds : List (Nat × Int)) (ps : List PRow) : List PRow :=
  ds.foldl (fun acc d => pIncById d.1 (-d.2) acc) ps

/-- `Purchase.findOneAndDelete`-style erasure: remove the single row
carrying `id`. -/
def pEraseById (i : Nat) : List PRow → List PRow
  | [] => []
  | r :: rs => if r.id == i then rs else r :: pEraseById i rs

/-- `Sale.findByIdAndDelete`-style erasure. -/
def sEraseById (i : Nat) : List SRow → List SRow
  | [] => []
  | r :: rs => if r.id == i then rs else r :: sEraseById i rs

/-- The slice of the document store the stock subsystem touches. -/
structure DB where
  inv : List InvRow
  purchases : List PRow
  sales : List SRow
deriving DecidableEq, Repr

/-- Creating a purchase: the document is inserted and
`purchaseSchema.post('save')` (`src/unnamed/part_001`) upsert-increments
the matching Inventory row by the purchased quantity. -/
def purchaseCreate (db : DB) (r : PRow) : DB :=
  { db with
    purchases := db.purchases ++ [r]
    inv := invAdjust r.product r.color r.quantity true db.inv }

/-- The body of `saleSchema.post('save')` (`src/unnamed/part_002`):
upsert-decrement Inventory by the sale quantity, then FIFO-deplete the
matching purchase rows oldest-first; returns the updated store and the
final `remainingQty` (warned about when positive). -/
def salePostSave (db : DB) (s : SRow) : DB × Int :=
  let inv2 := invAdjust s.product s.color (-s.quantity) true db.inv
  let matched := sortByDate (db.purchases.filter (fun r => pMatches s.product s.color r))
  let ds := fifoDeducts s.quantity matched
  ({ inv := inv2
     purchases := applyDeducts ds db.purchases
     sales := db.sales },
   fifoRemaining s.quantity matched)

/-- Creating a sale: the document is inserted, then the post-save hook
runs. -/
def saleCreate (db : DB) (s : SRow) : DB × Int :=
  salePostSave { db with sales := db.sales ++ [s] } s

/-- `deletePurchase` (`purchase.controller.js`): look the document up,
delete it, and let `purchaseSchema.post('findOneAndDelete')`
(`purchase.model.js` lines 135-155) decrement the matching Inventory row
by the deleted quantity (no upsert). -/
def purchaseDelete (db : DB) (i : Nat) : DB :=
  match db.purchases.find? (fun r => r.id == i) with
  | none => db
  | some doc =>
    { db with
      purchases := pEraseById i db.purchases
      inv := invAdjust doc.product doc.color (-doc.quantity) false db.inv }

/-- `deleteSale` (`sale.controller.js`) plus
`saleSchema.post('findOneAndDelete')` (`src/unnamed/part_002` lines
123-151): increment Inventory back by the sale quantity (no upsert) and
add the full quantity back onto the single oldest matching purchase row. -/
def saleDelete (db : DB) (i : Nat) : DB :=
  match db.sales.find? (fun r => r.id == i) with
  | none => db
  | some doc =>
    let matched := sortByDate (db.purchases.filter (fun r => pMatches doc.product doc.color r))
    { inv := invAdjust doc.product doc.color doc.quantity false db.inv
      purchases :=
        match matched with
        | [] => db.purchases
        | oldest :: _ => pIncById oldest.id doc.quantity db.purchases
      sales := sEraseById i db.sales }

/-- The shape of a MongoDB driver error, as inspected by `withRetry`
(`purchase.model.js` lines 5-23): numeric `code`, string `codeName`, and
the optional `errorLabels` array (absent modelled as the empty list). -/
structure MErr where
  code : Option Nat
  codeName : Option String
  errorLabels : List String
deriving DecidableEq, Repr

/-- The retryability test of `withRetry`: `error.code === 112`, or
`error.codeName === 'WriteConflict'`, or
`error.errorLabels?.includes('TransientTransactionError')`. -/
def isWriteConflict (e : MErr) : Bool :=
  e.code == some 112 || e.codeName == some "WriteConflict" ||
    e.errorLabels.contains "TransientTransactionError"

/-- One run of the `withRetry` loop body starting at attempt index `i`
(0-based), with `fuel` iterations of the `for` loop left.  `op i` is the
outcome the underlying operation would have on attempt `i`.  Returns the
list of backoff delays slept (in ms, `100 * (i + 1)` after a retried
attempt `i`) together with the final outcome.  The fuel-exhausted case is
unreachable whenever `fuel = maxRetries - i > 0`, because the last
iteration either returns or rethrows. -/
def withRetryAux (op : Nat → Except MErr α) (maxRetries : Nat) :
    Nat → Nat → List Nat × Except MErr α
  | _, 0 => ([], .error ⟨none, none, []⟩)
  | i, fuel + 1 =>
    match op i with
    | .ok a => ([], .ok a)
    | .error e =>
      if isWriteConflict e && decide (i < maxRetries - 1) then
        let r := withRetryAux op maxRetries (i + 1) fuel
        (100 * (i + 1) :: r.1, r.2)
      else ([], .error e)

/-- `withRetry(operation, maxRetries = 5)`: run the operation, retrying
only write-conflict/transient errors, at most `maxRetries` attempts in
total. -/
def withRetry (op : Nat → Except MErr α) (maxRetries : Nat := 5) :
    List Nat × Except MErr α :=
  withRetryAux op maxRetries 0 maxRetries

/-- The low-stock query, final variant (`src/models/expense.model.js`
lines 205-214): `Inventory.find({ $expr: { $lte: ['$quantity',
'$minStockLevel'] }, quantity: { $gt: 0 } }).sort({ quantity: 1 })`. -/
def getLowStock (inv : List InvRow) : List InvRow :=
  sortLt (fun a b => a.quantity < b.quantity)
    (inv.filter (fun r => decide (r.quantity ≤ r.minStockLevel) && decide (0 < r.quantity)))

/-- Transaction type of a vendor-ledger entry. -/
inductive TType where
  | payable
  | receivable
deriving DecidableEq, Repr

/-- A vendor-ledger row (`ledger.model`): vendor key, date (ms), type,
amount, the two persisted balances and the status string. -/
structure LTxn where
  id : Nat
  vendor : Nat
  date : Nat
  ttype : TType
  amount : Int
  openingBalance : Int
  closingBalance : Int
  status : String
deriving DecidableEq, Repr

/-- Milliseconds per calendar day; `setHours(0,0,0,0)` is modelled as
flooring a timestamp to a multiple of this. -/
def msPerDay : Nat := 86400000

/-- Start of the calendar day containing `t`. -/
def startOfDay (t : Nat) : Nat := t / msPerDay * msPerDay

/-- `Ledger.findOne({ vendor, date: { $lt: startOfDay } }).sort({ date: -1 })`:
the latest-dated candidate, earliest-inserted among ties. -/
def latestTxn (l : List LTxn) : Option LTxn :=
  l.foldl
    (fun acc t =>
      match acc with
      | none => some t
      | some b => if b.date < t.date then some t else acc)
    none

/-- `getOpeningBalance(vendor, date)` (`ledger.controller.js` lines 4-14):
closing balance of the latest transaction of that vendor dated strictly
before the start of `date`'s day, or 0 if none. -/
def getOpeningBalance (l : List LTxn) (v : Nat) (date : Nat) : Int :=
  match latestTxn (l.filter (fun t => t.vendor == v && decide (t.date < startOfDay date))) with
  | some t => t.closingBalance
  | none => 0

/-- `calculateClosingBalance` (`ledger.controller.js` lines 17-24). -/
def calculateClosingBalance (openingBalance : Int) (tt : TType) (amount : Int) : Int :=
  match tt with
  | .receivable => openingBalance + amount
  | .payable => openingBalance - amount

/-- `addTransaction` (`ledger.controller.js` lines 27-91): reject a
non-positive amount (400), otherwise persist an entry carrying the
computed opening/closing balances and status `completed`.  Returns the
updated ledger and the created entry. -/
def addTransaction (l : List LTxn) (i v : Nat) (tt : TType) (amount : Int)
    (date : Nat) : Option (List LTxn × LTxn) :=
  if amount ≤ 0 then none
  else
    let ob := getOpeningBalance l v date
    let e : LTxn := ⟨i, v, date, tt, amount, ob, calculateClosingBalance ob tt amount, "completed"⟩
    some (l ++ [e], e)

/-- `Ledger.findByIdAndUpdate(id, { status })`: set only the status field
of the single row carrying `id`. -/
def lSetStatusById (i : Nat) (s : String) : List LTxn → List LTxn
  | [] => []
  | r :: rs =>
    if r.id == i then { r with status := s } :: rs
    else r :: lSetStatusById i s rs

/-- `Ledger.findByIdAndDelete(id)`-style erasure. -/
def lEraseById (i : Nat) : List LTxn → List LTxn
  | [] => []
  | r :: rs => if r.id == i then rs else r :: lEraseById i rs

/-- `updateTransaction` (`ledger.controller.js` lines 241-278): reject a
status outside pending/completed/cancelled (400), 404 when the id is
absent, otherwise update only the status of that row. -/
def updateTransaction (l : List LTxn) (i : Nat) (s : String) : Option (List LTxn) :=
  if (s == "pending" || s == "completed" || s == "cancelled") then
    match l.find? (fun r => r.id == i) with
    | none => none
    | some _ => some (lSetStatusById i s l)
  else none

/-- `deleteTransaction` (`ledger.controller.js` lines 281-306): 404 when
the id is absent, otherwise remove exactly that row (returning it). -/
def deleteTransaction (l : List LTxn) (i : Nat) : Option (List LTxn × LTxn) :=
  match l.find? (fun r => r.id == i) with
  | none => none
  | some doc => some (lEraseById i l, doc)

/-- Responses of the sale-creation controller paths that the claims
distinguish. -/
inductive SaleResp where
  | missingFields
  | productNotFound
  | insufficientStock (available : Int)
  | created (saleId : Nat)
deriving DecidableEq, Repr

/-- `createSale` (`sale.controller.js` lines 10-84): falsy-check the
required fields, 404 on an unknown product, then find the Inventory row
for `{ product }` (+ `color` when truthy) and reject with 400
`Insufficient stock` when there is none or its quantity is below the
requested quantity; only then is the Sale document created (which fires
the post-save hook).  `catalog` is the set of existing product ids;
`unitPrice` is consulted only by the falsy check. -/
def createSaleCtrl (catalog : List Nat) (db : DB) (product : Nat)
    (colorReq : Option Nat) (qty unitPrice : Int) (saleId date : Nat) :
    SaleResp × DB :=
  if qty == 0 || unitPrice == 0 then (.missingFields, db)
  else if !(catalog.contains product) then (.productNotFound, db)
  else
    match db.inv.find? (fun r => invMatches product colorReq r) with
    | none => (.insufficientStock 0, db)
    | some item =>
      if item.quantity < qty then (.insufficientStock item.quantity, db)
      else (.created saleId, (saleCreate db ⟨saleId, date, product, colorReq, qty⟩).1)

/-- One requested line of a bulk sale. -/
structure SaleReq where
  product : Nat
  colorReq : Option Nat
  qty : Int
  unitPrice : Int
  saleId : Nat
  date : Nat
deriving DecidableEq, Repr

/-- The per-item body of `createBulkSales` (`sale.controller.js` lines
89-158): a missing field or a failed stock check pushes an error and
leaves the store untouched; otherwise the sale is created.  Returns the
updated store, created count and error count.  (Bulk items skip the
product-existence check of `createSale`.) -/
def bulkStep (acc : DB × Nat × Nat) (it : SaleReq) : DB × Nat × Nat :=
  let (db, created, errs) := acc
  if it.qty == 0 || it.unitPrice == 0 then (db, created, errs + 1)
  else
    match db.inv.find? (fun r => invMatches it.product it.colorReq r) with
    | none => (db, created, errs + 1)
    | some item =>
      if item.quantity < it.qty then (db, created, errs + 1)
      else ((saleCreate db ⟨it.saleId, it.date, it.product, it.colorReq, it.qty⟩).1,
            created + 1, errs)

/-- `createBulkSales`: fold the per-item body over the request list. -/
def createBulkSales (db : DB) (items : List SaleReq) : DB × Nat × Nat :=
  items.foldl bulkStep (db, 0, 0)

/-- Spec-side description of the opening-balance source: the closing
balance of the latest (by date, earliest-inserted among ties) transaction
of the vendor, or 0 when the vendor has none.  Used to compare the code's
`getOpeningBalance` against the claims' "prior transaction" wording. -/
def priorClosing (l : List LTxn) (v : Nat) : Int :=
  match latestTxn (l.filter (fun t => t.vendor == v)) with
  | some b => b.closingBalance
  | none => 0

theorem insLt_perm (lt : α → α → Bool) (x : α) :
    ∀ l : List α, List.Perm (insLt lt x l) (x :: l) := by
  intro l
  induction l with
  | nil => exact List.Perm.refl _
  | cons y ys ih =>
    show List.Perm (if lt y x then y :: insLt lt x ys else x :: y :: ys) (x :: y :: ys)
    by_cases h : lt y x
    · simpa [h] using ((ih.cons y).trans (List.Perm.swap x y ys))
    · simp [h]

theorem sortLt_perm (lt : α → α → Bool) : ∀ l : List α, List.Perm (sortLt lt l) l := by
  intro l
  induction l with
  | nil => exact List.Perm.refl _
  | cons x xs ih => exact (insLt_perm lt x (sortLt lt xs)).trans (ih.cons x)

/-- C8: the low-stock query returns exactly the persisted rows with
`0 < quantity ≤ minStockLevel`; in particular rows with quantity exactly 0
are never returned. -/
theorem c8_low_stock_exact (inv : List InvRow) (r : InvRow) :
    r ∈ getLowStock inv ↔
      r ∈ inv ∧ 0 < r.quantity ∧ r.quantity ≤ r.minStockLevel := by
  unfold getLowStock
  rw [(sortLt_perm _ _).mem_iff, List.mem_filter]
  simp only [Bool.and_eq_true, decide_eq_true_eq, and_assoc]
  tauto

/-- C2: FIFO depletion walks matching purchases by ascending date,
deducting `min(remaining, quantity)` from each: with P1 (qty 10, older
date) and P2 (qty 5, newer date) — P2 stored first, so date order, not
store order, decides — a sale of 12 zeroes P1 and leaves P2 at 3, with no
shortfall warning. -/
theorem c2_fifo_depletion_example :
    (saleCreate
        { inv := [⟨1, none, 15, 5⟩]
          purchases := [⟨2, 200, 1, none, 5⟩, ⟨1, 100, 1, none, 10⟩]
          sales := [] }
        ⟨7, 300, 1, none, 12⟩).1.purchases =
      [⟨2, 200, 1, none, 3⟩, ⟨1, 100, 1, none, 0⟩] ∧
    (saleCreate
        { inv := [⟨1, none, 15, 5⟩]
          purchases := [⟨2, 200, 1, none, 5⟩, ⟨1, 100, 1, none, 10⟩]
          sales := [] }
        ⟨7, 300, 1, none, 12⟩).2 = 0 := by
  decide

/-- A purchase-creation or sale-creation operation for one fixed
(product, color) key, carrying its quantity plus fresh document id and
date. -/
inductive KOp where
  | purchase (q : Int) (i d : Nat)
  | sale (q : Int) (i d : Nat)
deriving DecidableEq, Repr

/-- Run one key operation against the store. -/
def applyKOp (p : Nat) (c : Option Nat) (db : DB) : KOp → DB
  | .purchase q i d => purchaseCreate db ⟨i, d, p, c, q⟩
  | .sale q i d => (saleCreate db ⟨i, d, p, c, q⟩).1

/-- The signed inventory delta of a key operation. -/
def opDelta : KOp → Int
  | .purchase q _ _ => q
  | .sale q _ _ => -q

/-- Run a sequence of key operations. -/
def runKOps (p : Nat) (c : Option Nat) (db : DB) (ops : List KOp) : DB :=
  ops.foldl (applyKOp p c) db

theorem invMatches_self (p : Nat) (c : Option Nat) (q m : Int) :
    invMatches p c ⟨p, c, q, m⟩ = true := by
  cases c <;> simp [invMatches]

theorem invAdjust_nomatch (p : Nat) (c : Option Nat) (d : Int)
    (inv : List InvRow) (h : ∀ r ∈ inv, invMatches p c r = false) :
    invAdjust p c d true inv = inv ++ [⟨p, c, d, defaultMinStock⟩] := by
  induction inv with
  | nil => rfl
  | cons r rs ih =>
    have hr : invMatches p c r = false := h r (by simp)
    simp only [invAdjust, hr, Bool.false_eq_true, if_false, List.cons_append,
      List.cons.injEq, true_and]
    exact ih (fun x hx => h x (by simp [hx]))

theorem invAdjust_append_key (p : Nat) (c : Option Nat) (d q m : Int)
    (inv : List InvRow) (h : ∀ r ∈ inv, invMatches p c r = false) :
    invAdjust p c d true (inv ++ [⟨p, c, q, m⟩]) = inv ++ [⟨p, c, q + d, m⟩] := by
  induction inv with
  | nil => simp [invAdjust, invMatches_self]
  | cons r rs ih =>
    have hr : invMatches p c r = false := h r (by simp)
    simp only [List.cons_append, invAdjust, hr, Bool.false_eq_true, if_false,
      List.cons.injEq, true_and]
    exact ih (fun x hx => h x (by simp [hx]))

theorem applyKOp_inv (p : Nat) (c : Option Nat) (db : DB) (op : KOp) :
    (applyKOp p c db op).inv = invAdjust p c (opDelta op) true db.inv := by
  cases op <;> rfl

theorem runKOps_inv (p : Nat) (c : Option Nat) (ops : List KOp) :
    ∀ db : DB, (runKOps p c db ops).inv =
      (ops.map opDelta).foldl (fun i d => invAdjust p c d true i) db.inv := by
  induction ops with
  | nil => intro db; rfl
  | cons op ops ih =>
    intro db
    show (runKOps p c (applyKOp p c db op) ops).inv = _
    rw [ih (applyKOp p c db op), applyKOp_inv]
    rfl

theorem foldl_invAdjust_key (p : Nat) (c : Option Nat) (pre : List InvRow)
    (h : ∀ r ∈ pre, invMatches p c r = false) (ds : List Int) :
    ∀ q m : Int,
      ds.foldl (fun i d => invAdjust p c d true i) (pre ++ [⟨p, c, q, m⟩]) =
        pre ++ [⟨p, c, q + ds.sum, m⟩] := by
  induction ds with
  | nil => intro q m; simp
  | cons d ds ih =>
    intro q m
    show ds.foldl _ (invAdjust p c d true (pre ++ [⟨p, c, q, m⟩])) = _
    rw [invAdjust_append_key p c d q m pre h, ih (q + d) m]
    simp [add_assoc]

/-- C1: starting with no Inventory row matching the key's filter, any
nonempty sequence of purchase and sale creations for one (product, color)
key leaves the store extended by exactly one row for that key whose
quantity is the sum of the purchased quantities minus the sum of the sold
quantities. -/
theorem c1_quantity_invariant (p : Nat) (c : Option Nat) (db : DB)
    (ops : List KOp) (hclean : ∀ r ∈ db.inv, invMatches p c r = false)
    (hne : ops ≠ []) :
    (runKOps p c db ops).inv =
      db.inv ++ [⟨p, c, (ops.map opDelta).sum, defaultMinStock⟩] := by
  cases ops with
  | nil => exact absurd rfl hne
  | cons op ops =>
    rw [runKOps_inv]
    show (ops.map opDelta).foldl _ (invAdjust p c (opDelta op) true db.inv) = _
    rw [invAdjust_nomatch p c (opDelta op) db.inv hclean,
      foldl_invAdjust_key p c db.inv hclean (ops.map opDelta) (opDelta op) defaultMinStock]
    simp

/-- Witness for C1: a purchase of 10 followed by a sale of 4 on a fresh
key yields a single row of quantity 6. -/
theorem c1_quantity_invariant_witness :
    (∀ r ∈ (⟨[], [], []⟩ : DB).inv, invMatches 1 none r = false) ∧
      ([KOp.purchase 10 1 1, KOp.sale 4 2 2] ≠ []) ∧
      (runKOps 1 none ⟨[], [], []⟩ [KOp.purchase 10 1 1, KOp.sale 4 2 2]).inv =
        [⟨1, none, 6, defaultMinStock⟩] := by
  refine ⟨by simp, by simp, ?_⟩
  rw [c1_quantity_invariant 1 none ⟨[], [], []⟩ [KOp.purchase 10 1 1, KOp.sale 4 2 2]
    (by simp) (by simp)]
  decide

theorem getOpeningBalance_append_ge (l : List LTxn) (e : LTxn) (v : Nat)
    (d : Nat) (h : startOfDay d ≤ e.date) :
    getOpeningBalance (l ++ [e]) v d = getOpeningBalance l v d := by
  unfold getOpeningBalance
  rw [List.filter_append]
  have he : (e.vendor == v && decide (e.date < startOfDay d)) = false := by
    simp [Nat.not_lt.mpr h]
  simp [List.filter, he]

/-- C5: with every existing transaction of the vendor dated before the new
transaction's day, the persisted entry's opening balance is the closing
balance of the vendor's latest prior transaction (0 when there is none),
and its closing balance is opening + amount for receivable, opening −
amount for payable. -/
theorem c5_ledger_chain (l : List LTxn) (i v : Nat) (tt : TType)
    (amount : Int) (d : Nat) (hamt : 0 < amount)
    (hbefore : ∀ t ∈ l, t.vendor = v → t.date < startOfDay d) :
    ∃ e : LTxn,
      addTransaction l i v tt amount d = some (l ++ [e], e) ∧
      e.openingBalance = priorClosing l v ∧
      (tt = .receivable → e.closingBalance = e.openingBalance + amount) ∧
      (tt = .payable → e.closingBalance = e.openingBalance - amount) ∧
      e.status = "completed" ∧ e.amount = amount ∧ e.vendor = v ∧ e.date = d := by
  have hfil :
      l.filter (fun t => t.vendor == v && decide (t.date < startOfDay d)) =
        l.filter (fun t => t.vendor == v) := by
    apply List.filter_congr
    intro t ht
    cases hv : (t.vendor == v) with
    | false => simp
    | true => simp [hbefore t ht (by simpa using hv)]
  have hob : getOpeningBalance l v d = priorClosing l v := by
    unfold getOpeningBalance priorClosing
    rw [hfil]
  refine ⟨⟨i, v, d, tt, amount, getOpeningBalance l v d,
      calculateClosingBalance (getOpeningBalance l v d) tt amount, "completed"⟩,
    ?_, hob, ?_, ?_, rfl, rfl, rfl, rfl⟩
  · unfold addTransaction
    rw [if_neg (not_le.mpr hamt)]
  · intro htt; subst htt; rfl
  · intro htt; subst htt; rfl

/-- Concrete day-1 receivable transaction of vendor 7 used by the ledger
witnesses: opening 0, closing 100. -/
def ledgerT1 : LTxn := ⟨1, 7, 86400000, .receivable, 100, 0, 100, "completed"⟩

/-- Witness for C5: vendor 7, T1 (day 1, receivable 100) then T2 (day 2,
payable 30) — balances 0/100 and 100/70. -/
theorem c5_ledger_chain_witness :
    addTransaction [] 1 7 TType.receivable 100 86400000 =
      some ([ledgerT1], ledgerT1) ∧
    addTransaction [ledgerT1] 2 7 TType.payable 30 172800000 =
      some ([ledgerT1, ⟨2, 7, 172800000, .payable, 30, 100, 70, "completed"⟩],
        ⟨2, 7, 172800000, .payable, 30, 100, 70, "completed"⟩) ∧
    priorClosing [ledgerT1] 7 = 100 ∧
    (∃ e : LTxn,
      addTransaction [ledgerT1] 2 7 TType.payable 30 172800000 =
        some ([ledgerT1] ++ [e], e) ∧
      e.openingBalance = priorClosing [ledgerT1] 7 ∧
      (TType.payable = .receivable → e.closingBalance = e.openingBalance + 30) ∧
      (TType.payable = .payable → e.closingBalance = e.openingBalance - 30) ∧
      e.status = "completed" ∧ e.amount = 30 ∧ e.vendor = 7 ∧ e.date = 172800000) := by
  refine ⟨by decide, by decide, by decide, ?_⟩
  exact c5_ledger_chain [ledgerT1] 2 7 TType.payable 30 172800000 (by decide)
    (by decide)

/-- C6: two same-day transactions of one vendor both read the closing
balance from strictly before that day as their opening balance, whichever
of the two is added first. -/
theorem c6_same_day_opening (l : List LTxn) (v i1 i2 : Nat) (tt1 tt2 : TType)
    (a1 a2 : Int) (d1 d2 : Nat) (h1 : 0 < a1) (h2 : 0 < a2)
    (hday : d1 / msPerDay = d2 / msPerDay) :
    getOpeningBalance l v d2 = getOpeningBalance l v d1 ∧
    (∃ e1 e2 : LTxn,
      addTransaction l i1 v tt1 a1 d1 = some (l ++ [e1], e1) ∧
      addTransaction (l ++ [e1]) i2 v tt2 a2 d2 = some (l ++ [e1] ++ [e2], e2) ∧
      e1.openingBalance = getOpeningBalance l v d1 ∧
      e2.openingBalance = getOpeningBalance l v d1) ∧
    (∃ e2 e1 : LTxn,
      addTransaction l i2 v tt2 a2 d2 = some (l ++ [e2], e2) ∧
      addTransaction (l ++ [e2]) i1 v tt1 a1 d1 = some (l ++ [e2] ++ [e1], e1) ∧
      e2.openingBalance = getOpeningBalance l v d1 ∧
      e1.openingBalance = getOpeningBalance l v d1) := by
  have hsod : startOfDay d1 = startOfDay d2 := by
    unfold startOfDay; rw [hday]
  have hob : getOpeningBalance l v d2 = getOpeningBalance l v d1 := by
    unfold getOpeningBalance; rw [hsod]
  have hle2 : startOfDay d2 ≤ d1 := by
    rw [← hsod]; exact Nat.div_mul_le_self d1 msPerDay
  have hle1 : startOfDay d1 ≤ d2 := by
    rw [hsod]; exact Nat.div_mul_le_self d2 msPerDay
  set e1 : LTxn := ⟨i1, v, d1, tt1, a1, getOpeningBalance l v d1,
    calculateClosingBalance (getOpeningBalance l v d1) tt1 a1, "completed"⟩ with he1
  set e2 : LTxn := ⟨i2, v, d2, tt2, a2, getOpeningBalance l v d2,
    calculateClosingBalance (getOpeningBalance l v d2) tt2 a2, "completed"⟩ with he2
  set e2a : LTxn := ⟨i2, v, d2, tt2, a2, getOpeningBalance (l ++ [e1]) v d2,
    calculateClosingBalance (getOpeningBalance (l ++ [e1]) v d2) tt2 a2,
    "completed"⟩ with he2a
  set e1a : LTxn := ⟨i1, v, d1, tt1, a1, getOpeningBalance (l ++ [e2]) v d1,
    calculateClosingBalance (getOpeningBalance (l ++ [e2]) v d1) tt1 a1,
    "completed"⟩ with he1a
  refine ⟨hob, ⟨e1, e2a, ?_, ?_, rfl, ?_⟩, ⟨e2, e1a, ?_, ?_, ?_, ?_⟩⟩
  · unfold addTransaction; rw [if_neg (not_le.mpr h1)]
  · unfold addTransaction; rw [if_neg (not_le.mpr h2)]
  · show getOpeningBalance (l ++ [e1]) v d2 = _
    rw [getOpeningBalance_append_ge l e1 v d2 (by simpa [he1] using hle2), hob]
  · unfold addTransaction; rw [if_neg (not_le.mpr h2)]
  · unfold addTransaction; rw [if_neg (not_le.mpr h1)]
  · exact hob
  · show getOpeningBalance (l ++ [e2]) v d1 = _
    rw [getOpeningBalance_append_ge l e2 v d1 (by simpa [he2] using hle1)]

theorem find?_split {α : Type} (p : α → Bool) (pre : List α) (r : α)
    (post : List α) (hpre : ∀ x ∈ pre, p x = false) (hr : p r = true) :
    (pre ++ r :: post).find? p = some r := by
  induction pre with
  | nil => simp [List.find?, hr]
  | cons a pre ih =>
    have ha : p a = false := hpre a (by simp)
    simp only [List.cons_append, List.find?, ha]
    exact ih (fun x hx => hpre x (by simp [hx]))

theorem lSetStatusById_split (i : Nat) (s : String) (pre post : List LTxn)
    (r : LTxn) (hpre : ∀ x ∈ pre, (x.id == i) = false) (hr : r.id = i) :
    lSetStatusById i s (pre ++ r :: post) =
      pre ++ { r with status := s } :: post := by
  induction pre with
  | nil => simp [lSetStatusById, hr]
  | cons a pre ih =>
    have ha : (a.id == i) = false := hpre a (by simp)
    simp only [List.cons_append, lSetStatusById, ha, Bool.false_eq_true,
      if_false, List.cons.injEq, true_and]
    exact ih (fun x hx => hpre x (by simp [hx]))

theorem lEraseById_split (i : Nat) (pre post : List LTxn) (r : LTxn)
    (hpre : ∀ x ∈ pre, (x.id == i) = false) (hr : r.id = i) :
    lEraseById i (pre ++ r :: post) = pre ++ post := by
  induction pre with
  | nil => simp [lEraseById, hr]
  | cons a pre ih =>
    have ha : (a.id == i) = false := hpre a (by simp)
    simp only [List.cons_append, lEraseById, ha, Bool.false_eq_true, if_false,
      List.cons.injEq, true_and]
    exact ih (fun x hx => hpre x (by simp [hx]))

/-- C9: updating a ledger transaction rewrites only the status field of
exactly that row (all its other fields and every other row are unchanged),
an out-of-range status is rejected, and deleting removes exactly that
row. -/
theorem c9_update_delete_frame (l : List LTxn) (i : Nat) (s : String)
    (pre post : List LTxn) (r : LTxn)
    (hs : s = "pending" ∨ s = "completed" ∨ s = "cancelled")
    (hl : l = pre ++ r :: post)
    (hpre : ∀ x ∈ pre, (x.id == i) = false) (hr : r.id = i) :
    updateTransaction l i s = some (pre ++ { r with status := s } :: post) ∧
    deleteTransaction l i = some (pre ++ post, r) ∧
    (∀ s' : String,
      (s' == "pending" || s' == "completed" || s' == "cancelled") = false →
      updateTransaction l i s' = none) := by
  subst hl
  have hfind : (pre ++ r :: post).find? (fun x => x.id == i) = some r :=
    find?_split _ pre r post hpre (by simp [hr])
  refine ⟨?_, ?_, ?_⟩
  · unfold updateTransaction
    rw [if_pos (by rcases hs with h | h | h <;> simp [h]), hfind,
      lSetStatusById_split i s pre post r hpre hr]
  · unfold deleteTransaction
    rw [hfind, lEraseById_split i pre post r hpre hr]
  · intro s' hs'
    unfold updateTransaction
    rw [if_neg (by simp [hs'])]

/-- Witness for C9: updating the middle row of a three-row ledger to
`cancelled` touches only its status; deleting it removes only it. -/
theorem c9_update_delete_frame_witness :
    updateTransaction
        [ledgerT1, ⟨2, 7, 172800000, .payable, 30, 100, 70, "completed"⟩,
          ⟨3, 8, 172800000, .receivable, 50, 0, 50, "completed"⟩]
        2 "cancelled" =
      some [ledgerT1, ⟨2, 7, 172800000, .payable, 30, 100, 70, "cancelled"⟩,
        ⟨3, 8, 172800000, .receivable, 50, 0, 50, "completed"⟩] ∧
    deleteTransaction
        [ledgerT1, ⟨2, 7, 172800000, .payable, 30, 100, 70, "completed"⟩,
          ⟨3, 8, 172800000, .receivable, 50, 0, 50, "completed"⟩]
        2 =
      some ([ledgerT1, ⟨3, 8, 172800000, .receivable, 50, 0, 50, "completed"⟩],
        ⟨2, 7, 172800000, .payable, 30, 100, 70, "completed"⟩) ∧
    (∀ s' : String,
      (s' == "pending" || s' == "completed" || s' == "cancelled") = false →
      updateTransaction
          [ledgerT1, ⟨2, 7, 172800000, .payable, 30, 100, 70, "completed"⟩,
            ⟨3, 8, 172800000, .receivable, 50, 0, 50, "completed"⟩]
          2 s' = none) := by
  have h := c9_update_delete_frame
    [ledgerT1, ⟨2, 7, 172800000, .payable, 30, 100, 70, "completed"⟩,
      ⟨3, 8, 172800000, .receivable, 50, 0, 50, "completed"⟩]
    2 "cancelled" [ledgerT1]
    [⟨3, 8, 172800000, .receivable, 50, 0, 50, "completed"⟩]
    ⟨2, 7, 172800000, .payable, 30, 100, 70, "completed"⟩
    (by simp) (by decide) (by decide) (by decide)
  exact h

/-- C7: `withRetry` makes up to 5 attempts: five consecutive
write-conflict outcomes produce backoff waits of 100·1, 100·2, 100·3,
100·4 ms and only then surface the fifth attempt's error; a
non-write-conflict error is surfaced immediately with no retry; and a
retry that succeeds surfaces no error. -/
theorem c7_retry_protocol :
    (∀ (α : Type) (op : Nat → Except MErr α) (es : Nat → MErr),
      (∀ i, i < 5 → op i = .error (es i) ∧ isWriteConflict (es i) = true) →
      withRetry op 5 = ([100, 200, 300, 400], .error (es 4))) ∧
    (∀ (α : Type) (op : Nat → Except MErr α) (e : MErr),
      op 0 = .error e → isWriteConflict e = false →
      withRetry op 5 = ([], .error e)) ∧
    (∀ (α : Type) (op : Nat → Except MErr α) (e : MErr) (a : α),
      op 0 = .error e → isWriteConflict e = true → op 1 = .ok a →
      withRetry op 5 = ([100], .ok a)) := by
  refine ⟨?_, ?_, ?_⟩
  · intro α op es h
    have h0 := h 0 (by omega)
    have h1 := h 1 (by omega)
    have h2 := h 2 (by omega)
    have h3 := h 3 (by omega)
    have h4 := h 4 (by omega)
    simp [withRetry, withRetryAux, h0.1, h0.2, h1.1, h1.2, h2.1, h2.2,
      h3.1, h3.2, h4.1, h4.2]
  · intro α op e h0 hwc
    simp [withRetry, withRetryAux, h0, hwc]
  · intro α op e a h0 hwc h1
    simp [withRetry, withRetryAux, h0, hwc, h1]

/-- Witness for C7: a constantly-conflicting operation exhausts 5
attempts with waits 100..400; a duplicate-key style error (code 11000) is
not retried; a single conflict followed by success returns the value
after one 100 ms wait. -/
theorem c7_retry_protocol_witness :
    withRetry (fun _ => (.error ⟨some 112, none, []⟩ : Except MErr Nat)) 5 =
      ([100, 200, 300, 400], .error ⟨some 112, none, []⟩) ∧
    withRetry (fun _ => (.error ⟨some 11000, some "DuplicateKey", []⟩ :
        Except MErr Nat)) 5 =
      ([], .error ⟨some 11000, some "DuplicateKey", []⟩) ∧
    withRetry
        (fun i => if i = 0 then
            (.error ⟨none, some "WriteConflict", []⟩ : Except MErr Nat)
          else .ok 42) 5 =
      ([100], .ok 42) := by
  refine ⟨?_, ?_, ?_⟩
  · exact c7_retry_protocol.1 Nat _ (fun _ => ⟨some 112, none, []⟩)
      (fun i _ => ⟨rfl, rfl⟩)
  · exact c7_retry_protocol.2.1 Nat _ ⟨some 11000, some "DuplicateKey", []⟩
      rfl rfl
  · exact c7_retry_protocol.2.2 Nat _ ⟨none, some "WriteConflict", []⟩ 42
      rfl rfl rfl

/-- C10: when the stock check fails — no Inventory row matches the
requested (product, color) filter, or the found row's quantity is below
the requested quantity — `createSale` answers 400 Insufficient stock and
returns the store untouched (no Sale, Inventory or Purchase row changes),
and a single-item `createBulkSales` batch records one error and likewise
leaves the store untouched. -/
theorem c10_insufficient_stock_rejects (catalog : List Nat) (db : DB)
    (product : Nat) (colorReq : Option Nat) (qty unitPrice : Int)
    (saleId date : Nat) (hqty : qty ≠ 0) (hprice : unitPrice ≠ 0)
    (hcat : product ∈ catalog)
    (hstock : db.inv.find? (fun r => invMatches product colorReq r) = none ∨
      ∃ item, db.inv.find? (fun r => invMatches product colorReq r) = some item ∧
        item.quantity < qty) :
    (∃ a : Int,
      createSaleCtrl catalog db product colorReq qty unitPrice saleId date =
        (.insufficientStock a, db)) ∧
    createBulkSales db [⟨product, colorReq, qty, unitPrice, saleId, date⟩] =
      (db, 0, 1) := by
  have hq : (qty == 0 || unitPrice == 0) = false := by
    simp [hqty, hprice]
  constructor
  · unfold createSaleCtrl
    rw [hq]
    simp only [Bool.false_eq_true, if_false]
    rw [if_neg (by simp [hcat])]
    rcases hstock with h | ⟨item, hfind, hlt⟩
    · rw [h]; exact ⟨0, rfl⟩
    · rw [hfind]; exact ⟨item.quantity, by simp [hlt]⟩
  · show bulkStep (db, 0, 0) _ = (db, 0, 1)
    unfold bulkStep
    rw [hq]
    simp only [Bool.false_eq_true, if_false]
    rcases hstock with h | ⟨item, hfind, hlt⟩
    · rw [h]
    · rw [hfind]; simp [hlt]

/-- Witness for C10: product 1 is catalogued but its only inventory row
holds 2 units, so a sale of 3 is rejected with the store unchanged. -/
theorem c10_insufficient_stock_rejects_witness :
    (∃ a : Int,
      createSaleCtrl [1]
          { inv := [⟨1, none, 2, 5⟩], purchases := [], sales := [] }
          1 none 3 9 50 400 =
        (.insufficientStock a,
          { inv := [⟨1, none, 2, 5⟩], purchases := [], sales := [] })) ∧
    createBulkSales { inv := [⟨1, none, 2, 5⟩], purchases := [], sales := [] }
        [⟨1, none, 3, 9, 50, 400⟩] =
      ({ inv := [⟨1, none, 2, 5⟩], purchases := [], sales := [] }, 0, 1) := by
  exact c10_insufficient_stock_rejects [1]
    { inv := [⟨1, none, 2, 5⟩], purchases := [], sales := [] }
    1 none 3 9 50 400 (by decide) (by decide) (by decide)
    (Or.inr ⟨⟨1, none, 2, 5⟩, by decide, by decide⟩)

theorem invAdjust_split (p : Nat) (c : Option Nat) (d : Int) (u : Bool)
    (pre post : List InvRow) (r : InvRow)
    (hpre : ∀ x ∈ pre, invMatches p c x = false)
    (hr : invMatches p c r = true) :
    invAdjust p c d u (pre ++ r :: post) =
      pre ++ { r with quantity := r.quantity + d } :: post := by
  induction pre with
  | nil => simp [invAdjust, hr]
  | cons a pre ih =>
    have ha : invMatches p c a = false := hpre a (by simp)
    simp only [List.cons_append, invAdjust, ha, Bool.false_eq_true, if_false,
      List.cons.injEq, true_and]
    exact ih (fun x hx => hpre x (by simp [hx]))

theorem pMap_noop (i : Nat) (d : Int) (ps : List PRow)
    (h : ∀ r ∈ ps, (r.id == i) = false) :
    ps.map (fun r => if r.id == i then { r with quantity := r.quantity + d }
      else r) = ps := by
  induction ps with
  | nil => rfl
  | cons a as ih =>
    have ha : (a.id == i) = false := h a (by simp)
    simp only [List.map_cons, ha, Bool.false_eq_true, if_false,
      List.cons.injEq, true_and]
    exact ih (fun x hx => h x (by simp [hx]))

theorem pIncById_eq_map (i : Nat) (d : Int) (ps : List PRow)
    (h : (ps.map PRow.id).Nodup) :
    pIncById i d ps =
      ps.map (fun r => if r.id == i then { r with quantity := r.quantity + d }
        else r) := by
  induction ps with
  | nil => rfl
  | cons a as ih =>
    rw [List.map_cons, List.nodup_cons] at h
    cases ha : (a.id == i) with
    | true =>
      have hid : a.id = i := by simpa using ha
      have hrest : ∀ r ∈ as, (r.id == i) = false := by
        intro r hrmem
        have : r.id ≠ a.id := by
          intro hc
          exact h.1 (hc ▸ List.mem_map_of_mem PRow.id hrmem)
        simp [hid ▸ this]
      simp only [pIncById, ha, List.map_cons, if_true]
      rw [pMap_noop i d as hrest]
    | false =>
      simp only [pIncById, ha, Bool.false_eq_true, if_false, List.map_cons,
        List.cons.injEq, true_and]
      exact ih h.2

theorem sortLt_eq_nil {α : Type} (lt : α → α → Bool) (l : List α)
    (h : sortLt lt l = []) : l = [] := by
  have hp := sortLt_perm lt l
  rw [h] at hp
  exact hp.symm.eq_nil

theorem sortByDate_head_min (l : List PRow) :
    ∀ o : PRow, ∀ rest : List PRow, sortByDate l = o :: rest →
      ∀ x ∈ l, o.date ≤ x.date := by
  induction l with
  | nil => intro o rest h; cases h
  | cons a as ih =>
    intro o rest h x hx
    unfold sortByDate at h
    show o.date ≤ x.date
    cases hs : sortLt (fun a b => a.date < b.date) as with
    | nil =>
      have has : as = [] := sortLt_eq_nil _ as hs
      subst has
      simp only [sortLt, hs, insLt] at h
      rcases List.mem_cons.mp hx with hxa | hxas
      · cases h; subst hxa; exact le_refl _
      · cases hxas
    | cons b bs =>
      have hbmin : ∀ y ∈ as, b.date ≤ y.date := ih b bs (by
        unfold sortByDate; exact hs)
      simp only [sortLt, hs, insLt] at h
      by_cases hba : b.date < a.date
      · rw [if_pos (by simpa using hba)] at h
        have hob : o = b := by cases h; rfl
        subst hob
        rcases List.mem_cons.mp hx with hxa | hxas
        · subst hxa; exact le_of_lt hba
        · exact hbmin x hxas
      · rw [if_neg (by simpa using hba)] at h
        have hoa : o = a := by cases h; rfl
        subst hoa
        rcases List.mem_cons.mp hx with hxa | hxas
        · subst hxa; exact le_refl _
        · exact le_trans (Nat.not_lt.mp hba) (hbmin x hxas)

/-- C4: deleting a purchase of quantity Q decrements the single matching
Inventory row by exactly Q; deleting a sale of quantity Q increments that
row by exactly Q and adds the whole Q back onto the date-oldest matching
Purchase row only, every other purchase row keeping its quantity. -/
theorem c4_delete_reversal (db : DB) (pid sid : Nat) (pdoc : PRow)
    (sdoc : SRow) (preP postP preS postS : List InvRow) (rP rS : InvRow)
    (o : PRow) (restM : List PRow)
    (hp : db.purchases.find? (fun r => r.id == pid) = some pdoc)
    (hinvP : db.inv = preP ++ rP :: postP)
    (hpreP : ∀ x ∈ preP, invMatches pdoc.product pdoc.color x = false)
    (hrP : invMatches pdoc.product pdoc.color rP = true)
    (hs : db.sales.find? (fun r => r.id == sid) = some sdoc)
    (hinvS : db.inv = preS ++ rS :: postS)
    (hpreS : ∀ x ∈ preS, invMatches sdoc.product sdoc.color x = false)
    (hrS : invMatches sdoc.product sdoc.color rS = true)
    (hm : sortByDate (db.purchases.filter
        (fun r => pMatches sdoc.product sdoc.color r)) = o :: restM)
    (hids : (db.purchases.map PRow.id).Nodup) :
    (purchaseDelete db pid).inv =
      preP ++ { rP with quantity := rP.quantity - pdoc.quantity } :: postP ∧
    (purchaseDelete db pid).purchases = pEraseById pid db.purchases ∧
    (saleDelete db sid).inv =
      preS ++ { rS with quantity := rS.quantity + sdoc.quantity } :: postS ∧
    (saleDelete db sid).purchases =
      db.purchases.map (fun r => if r.id == o.id then
        { r with quantity := r.quantity + sdoc.quantity } else r) ∧
    (pMatches sdoc.product sdoc.color o = true ∧ o ∈ db.purchases) ∧
    (∀ x ∈ db.purchases, pMatches sdoc.product sdoc.color x = true →
      o.date ≤ x.date) := by
  have hofilter : o ∈ db.purchases.filter
      (fun r => pMatches sdoc.product sdoc.color r) := by
    have hperm := sortLt_perm (fun a b : PRow => a.date < b.date)
      (db.purchases.filter (fun r => pMatches sdoc.product sdoc.color r))
    unfold sortByDate at hm
    rw [hm] at hperm
    exact hperm.mem_iff.mp (by simp)
  refine ⟨?_, ?_, ?_, ?_, ?_, ?_⟩
  · unfold purchaseDelete
    rw [hp]
    show invAdjust pdoc.product pdoc.color (-pdoc.quantity) false db.inv = _
    rw [hinvP, invAdjust_split _ _ _ _ preP postP rP hpreP hrP,
      sub_eq_add_neg]
  · unfold purchaseDelete
    rw [hp]
  · unfold saleDelete
    rw [hs]
    show invAdjust sdoc.product sdoc.color sdoc.quantity false db.inv = _
    rw [hinvS, invAdjust_split _ _ _ _ preS postS rS hpreS hrS]
  · unfold saleDelete
    rw [hs]
    show (match sortByDate (db.purchases.filter
        (fun r => pMatches sdoc.product sdoc.color r)) with
      | [] => db.purchases
      | oldest :: _ => pIncById oldest.id sdoc.quantity db.purchases) = _
    rw [hm]
    exact pIncById_eq_map o.id sdoc.quantity db.purchases hids
  · exact ⟨(List.mem_filter.mp hofilter).2, (List.mem_filter.mp hofilter).1⟩
  · intro x hx hmx
    exact sortByDate_head_min _ o restM hm x (List.mem_filter.mpr ⟨hx, hmx⟩)

/-- Witness for C4: deleting the quantity-5 purchase lowers the inventory
row from 8 to 3, and deleting the quantity-7 sale raises it to 15 while
the full 7 lands on the oldest purchase row only. -/
theorem c4_delete_reversal_witness :
    (purchaseDelete
        { inv := [⟨1, none, 8, 5⟩]
          purchases := [⟨1, 100, 1, none, 10⟩, ⟨2, 200, 1, none, 5⟩]
          sales := [⟨9, 300, 1, none, 7⟩] } 2).inv =
      [⟨1, none, 3, 5⟩] ∧
    (purchaseDelete
        { inv := [⟨1, none, 8, 5⟩]
          purchases := [⟨1, 100, 1, none, 10⟩, ⟨2, 200, 1, none, 5⟩]
          sales := [⟨9, 300, 1, none, 7⟩] } 2).purchases =
      [⟨1, 100, 1, none, 10⟩] ∧
    (saleDelete
        { inv := [⟨1, none, 8, 5⟩]
          purchases := [⟨1, 100, 1, none, 10⟩, ⟨2, 200, 1, none, 5⟩]
          sales := [⟨9, 300, 1, none, 7⟩] } 9).inv =
      [⟨1, none, 15, 5⟩] ∧
    (saleDelete
        { inv := [⟨1, none, 8, 5⟩]
          purchases := [⟨1, 100, 1, none, 10⟩, ⟨2, 200, 1, none, 5⟩]
          sales := [⟨9, 300, 1, none, 7⟩] } 9).purchases =
      [⟨1, 100, 1, none, 17⟩, ⟨2, 200, 1, none, 5⟩] := by
  have h := c4_delete_reversal
    { inv := [⟨1, none, 8, 5⟩]
      purchases := [⟨1, 100, 1, none, 10⟩, ⟨2, 200, 1, none, 5⟩]
      sales := [⟨9, 300, 1, none, 7⟩] }
    2 9 ⟨2, 200, 1, none, 5⟩ ⟨9, 300, 1, none, 7⟩
    [] [] [] [] ⟨1, none, 8, 5⟩ ⟨1, none, 8, 5⟩
    ⟨1, 100, 1, none, 10⟩ [⟨2, 200, 1, none, 5⟩]
    (by decide) (by decide) (by decide) (by decide) (by decide) (by decide)
    (by decide) (by decide) (by decide) (by decide)
  refine ⟨h.1.trans (by decide), h.2.1.trans (by decide),
    h.2.2.1.trans (by decide), h.2.2.2.1.trans (by decide)⟩

theorem pMatches_setq (p : Nat) (c : Option Nat) (x : Int) (r : PRow) :
    pMatches p c { r with quantity := x } = pMatches p c r := rfl

theorem invMatches_setq (p : Nat) (c : Option Nat) (x : Int) (r : InvRow) :
    invMatches p c { r with quantity := x } = invMatches p c r := rfl

theorem lookup_none {β : Type} (i : Nat) (ds : List (Nat × β))
    (h : ∀ x ∈ ds, (i == x.1) = false) : List.lookup i ds = none := by
  induction ds with
  | nil => rfl
  | cons a as ih =>
    obtain ⟨k, b⟩ := a
    have hk : (i == k) = false := h (k, b) (by simp)
    simp only [List.lookup, hk]
    exact ih (fun x hx => h x (by simp [hx]))

theorem lookup_map_self (l : List PRow) (r : PRow)
    (h : (l.map PRow.id).Nodup) (hr : r ∈ l) :
    List.lookup r.id (l.map (fun x => (x.id, x.quantity))) = some r.quantity := by
  induction l with
  | nil => cases hr
  | cons a as ih =>
    rw [List.map_cons, List.nodup_cons] at h
    rcases List.mem_cons.mp hr with hra | hras
    · subst hra
      simp [List.lookup]
    · have hne : (r.id == a.id) = false := by
        have : r.id ≠ a.id := by
          intro hc
          exact h.1 (hc ▸ List.mem_map_of_mem PRow.id hras)
        simp [this]
      simp only [List.map_cons, List.lookup, hne]
      exact ih h.2 hras

theorem applyDeducts_eq_map (ds : List (Nat × Int)) :
    ∀ ps : List PRow, (ds.map Prod.fst).Nodup → (ps.map PRow.id).Nodup →
      applyDeducts ds ps =
        ps.map (fun r =>
          match List.lookup r.id ds with
          | some d => { r with quantity := r.quantity - d }
          | none => r) := by
  induction ds with
  | nil =>
    intro ps _ _
    exact (List.map_id ps).symm
  | cons kv ds ih =>
    intro ps hd hp
    obtain ⟨k, v⟩ := kv
    rw [List.map_cons, List.nodup_cons] at hd
    show applyDeducts ds (pIncById k (-v) ps) = _
    rw [pIncById_eq_map k (-v) ps hp]
    have hidmap :
        ((ps.map (fun r => if r.id == k then
          { r with quantity := r.quantity + -v } else r)).map PRow.id) =
          ps.map PRow.id := by
      rw [List.map_map]
      apply List.map_congr_left
      intro r _
      by_cases hrk : (r.id == k) = true <;> simp [Function.comp, hrk]
    rw [ih _ hd.2 (hidmap ▸ hp), List.map_map]
    apply List.map_congr_left
    intro r _
    by_cases hrk : (r.id == k) = true
    · have hrid : r.id = k := by simpa using hrk
      have hnone : List.lookup r.id ds = none := by
        apply lookup_none
        intro x hx
        have hx1 : x.1 ∈ ds.map Prod.fst := List.mem_map_of_mem Prod.fst hx
        have hkx : k ≠ x.1 := fun hc => hd.1 (hc ▸ hx1)
        simp [hrid, hkx]
      simp [Function.comp, List.lookup, hrk, hnone, sub_eq_add_neg]
    · simp [Function.comp, List.lookup, hrk]

theorem fifoDeducts_exhaust (l : List PRow) :
    ∀ rem : Int, (∀ r ∈ l, 0 ≤ r.quantity) →
      (l.map PRow.quantity).sum < rem →
      fifoDeducts rem l = l.map (fun r => (r.id, r.quantity)) ∧
      fifoRemaining rem l = rem - (l.map PRow.quantity).sum := by
  induction l with
  | nil =>
    intro rem _ _
    exact ⟨rfl, by simp [fifoRemaining]⟩
  | cons r rs ih =>
    intro rem hn hs
    have hq : 0 ≤ r.quantity := hn r (by simp)
    have hrs : 0 ≤ (rs.map PRow.quantity).sum := by
      apply List.sum_nonneg
      intro x hx
      obtain ⟨y, hy, rfl⟩ := List.mem_map.mp hx
      exact hn y (by simp [hy])
    rw [List.map_cons, List.sum_cons] at hs
    have hnotle : ¬ rem ≤ 0 := by omega
    have hmin : min rem r.quantity = r.quantity := min_eq_right (by omega)
    have htail := ih (rem - r.quantity)
      (fun x hx => hn x (by simp [hx])) (by omega)
    constructor
    · simp only [fifoDeducts, hnotle, if_false, hmin, List.map_cons]
      rw [htail.1]
    · simp only [fifoRemaining, hnotle, if_false, hmin, List.map_cons,
        List.sum_cons]
      rw [htail.2]
      omega

/-- Total quantity held by the Inventory rows matching the (product,
color) filter. -/
def invQtyFor (p : Nat) (c : Option Nat) (inv : List InvRow) : Int :=
  ((inv.filter (fun r => invMatches p c r)).map InvRow.quantity).sum

theorem invAdjust_qtyFor (p : Nat) (c : Option Nat) (d : Int)
    (inv : List InvRow) :
    invQtyFor p c (invAdjust p c d true inv) = invQtyFor p c inv + d := by
  induction inv with
  | nil =>
    simp [invQtyFor, invAdjust, List.filter, invMatches_self p c d defaultMinStock]
  | cons r rs ih =>
    by_cases hr : invMatches p c r = true
    · simp only [invAdjust, hr, if_true, invQtyFor, List.filter_cons,
        invMatches_setq, List.map_cons, List.sum_cons]
      omega
    · have hrf : invMatches p c r = false := by simpa using hr
      simp only [invAdjust, hrf, Bool.false_eq_true, if_false, invQtyFor,
        List.filter_cons]
      simpa [invQtyFor] using ih

/-- C3: a sale exceeding the total quantity recorded in the matching
purchase history still succeeds — the Sale document persists and the
matching Inventory quantity still drops by the full sale quantity — every
matching purchase row is driven to 0, and the hook reports the exact
positive shortfall as a warning value instead of failing. -/
theorem c3_shortfall_sale_succeeds (db : DB) (s : SRow)
    (hn : ∀ r ∈ db.purchases,
      pMatches s.product s.color r = true → 0 ≤ r.quantity)
    (hq : ((db.purchases.filter
        (fun r => pMatches s.product s.color r)).map PRow.quantity).sum <
      s.quantity)
    (hids : (db.purchases.map PRow.id).Nodup) :
    (saleCreate db s).1.sales = db.sales ++ [s] ∧
    invQtyFor s.product s.color (saleCreate db s).1.inv =
      invQtyFor s.product s.color db.inv - s.quantity ∧
    (∀ r ∈ (saleCreate db s).1.purchases,
      pMatches s.product s.color r = true → r.quantity = 0) ∧
    (saleCreate db s).2 =
      s.quantity - ((db.purchases.filter
        (fun r => pMatches s.product s.color r)).map PRow.quantity).sum ∧
    0 < (saleCreate db s).2 := by
  have hperm : List.Perm
      (sortByDate (db.purchases.filter (fun r => pMatches s.product s.color r)))
      (db.purchases.filter (fun r => pMatches s.product s.color r)) :=
    sortLt_perm _ _
  have hsumm :
      ((sortByDate (db.purchases.filter
        (fun r => pMatches s.product s.color r))).map PRow.quantity).sum =
      ((db.purchases.filter
        (fun r => pMatches s.product s.color r)).map PRow.quantity).sum :=
    (hperm.map PRow.quantity).sum_eq
  have hnm : ∀ r ∈ sortByDate (db.purchases.filter
      (fun r => pMatches s.product s.color r)), 0 ≤ r.quantity := by
    intro r hr
    have hrf := hperm.mem_iff.mp hr
    have := List.mem_filter.mp hrf
    exact hn r this.1 this.2
  have hmids : ((sortByDate (db.purchases.filter
      (fun r => pMatches s.product s.color r))).map PRow.id).Nodup := by
    rw [(hperm.map PRow.id).nodup_iff]
    exact hids.sublist ((List.filter_sublist db.purchases).map PRow.id)
  have hfifo := fifoDeducts_exhaust
    (sortByDate (db.purchases.filter (fun r => pMatches s.product s.color r)))
    s.quantity hnm (by omega)
  have hsales : (saleCreate db s).1.sales = db.sales ++ [s] := rfl
  have hinv : (saleCreate db s).1.inv =
      invAdjust s.product s.color (-s.quantity) true db.inv := rfl
  have hpurch : (saleCreate db s).1.purchases =
      applyDeducts
        (fifoDeducts s.quantity (sortByDate (db.purchases.filter
          (fun r => pMatches s.product s.color r))))
        db.purchases := rfl
  have hshort : (saleCreate db s).2 =
      fifoRemaining s.quantity (sortByDate (db.purchases.filter
        (fun r => pMatches s.product s.color r))) := rfl
  have hdsfst :
      ((sortByDate (db.purchases.filter
        (fun r => pMatches s.product s.color r))).map
          (fun r => (r.id, r.quantity))).map Prod.fst =
      (sortByDate (db.purchases.filter
        (fun r => pMatches s.product s.color r))).map PRow.id := by
    rw [List.map_map]
    rfl
  refine ⟨hsales, ?_, ?_, ?_, ?_⟩
  · rw [hinv, invAdjust_qtyFor]
    omega
  · intro r hr hmr
    rw [hpurch, hfifo.1,
      applyDeducts_eq_map _ db.purchases (hdsfst ▸ hmids) hids] at hr
    obtain ⟨x, hxps, hxr⟩ := List.mem_map.mp hr
    cases hl : List.lookup x.id
        ((sortByDate (db.purchases.filter
          (fun r => pMatches s.product s.color r))).map
            (fun r => (r.id, r.quantity))) with
    | none =>
      rw [hl] at hxr
      subst hxr
      have hxm : x ∈ sortByDate (db.purchases.filter
          (fun r => pMatches s.product s.color r)) :=
        hperm.mem_iff.mpr (List.mem_filter.mpr ⟨hxps, hmr⟩)
      rw [lookup_map_self _ x hmids hxm] at hl
      cases hl
    | some d =>
      rw [hl] at hxr
      subst hxr
      have hmx : pMatches s.product s.color x = true := by
        rwa [pMatches_setq] at hmr
      have hxm : x ∈ sortByDate (db.purchases.filter
          (fun r => pMatches s.product s.color r)) :=
        hperm.mem_iff.mpr (List.mem_filter.mpr ⟨hxps, hmx⟩)
      have := lookup_map_self _ x hmids hxm
      rw [hl] at this
      cases this
      show x.quantity - x.quantity = 0
      omega
  · rw [hshort, hfifo.2, hsumm]
  · rw [hshort, hfifo.2]
    omega

/-- Witness for C3: purchases totalling 8 units cannot cover a sale of
11; the sale is recorded, inventory drops from 9 to −2, both purchase
rows hit 0, and the shortfall reported is 3. -/
theorem c3_shortfall_sale_succeeds_witness :
    (saleCreate
        { inv := [⟨1, none, 9, 5⟩]
          purchases := [⟨2, 200, 1, none, 3⟩, ⟨1, 100, 1, none, 5⟩]
          sales := [] }
        ⟨7, 300, 1, none, 11⟩).1.sales = [⟨7, 300, 1, none, 11⟩] ∧
    invQtyFor 1 none (saleCreate
        { inv := [⟨1, none, 9, 5⟩]
          purchases := [⟨2, 200, 1, none, 3⟩, ⟨1, 100, 1, none, 5⟩]
          sales := [] }
        ⟨7, 300, 1, none, 11⟩).1.inv = -2 ∧
    (∀ r ∈ (saleCreate
        { inv := [⟨1, none, 9, 5⟩]
          purchases := [⟨2, 200, 1, none, 3⟩, ⟨1, 100, 1, none, 5⟩]
          sales := [] }
        ⟨7, 300, 1, none, 11⟩).1.purchases,
      pMatches 1 none r = true → r.quantity = 0) ∧
    (saleCreate
        { inv := [⟨1, none, 9, 5⟩]
          purchases := [⟨2, 200, 1, none, 3⟩, ⟨1, 100, 1, none, 5⟩]
          sales := [] }
        ⟨7, 300, 1, none, 11⟩).2 = 3 := by
  have h := c3_shortfall_sale_succeeds
    { inv := [⟨1, none, 9, 5⟩]
      purchases := [⟨2, 200, 1, none, 3⟩, ⟨1, 100, 1, none, 5⟩]
      sales := [] }
    ⟨7, 300, 1, none, 11⟩
    (by decide) (by decide) (by decide)
  refine ⟨h.1.trans (by decide), ?_, h.2.2.1, h.2.2.2.1.trans (by decide)⟩
  rw [h.2.1]
  decide

/-- Witness for C8: on a store with quantities 0, 3 and 9 against
minStockLevel 5, the quantity-3 row is low-stock while the zero row is
not. -/
theorem c8_low_stock_exact_witness :
    ((⟨2, none, 3, 5⟩ : InvRow) ∈
        getLowStock [⟨1, none, 0, 5⟩, ⟨2, none, 3, 5⟩, ⟨3, none, 9, 5⟩] ↔
      (⟨2, none, 3, 5⟩ : InvRow) ∈
          [(⟨1, none, 0, 5⟩ : InvRow), ⟨2, none, 3, 5⟩, ⟨3, none, 9, 5⟩] ∧
        0 < (3 : Int) ∧ (3 : Int) ≤ 5) ∧
    ((⟨1, none, 0, 5⟩ : InvRow) ∈
        getLowStock [⟨1, none, 0, 5⟩, ⟨2, none, 3, 5⟩, ⟨3, none, 9, 5⟩] ↔
      (⟨1, none, 0, 5⟩ : InvRow) ∈
          [(⟨1, none, 0, 5⟩ : InvRow), ⟨2, none, 3, 5⟩, ⟨3, none, 9, 5⟩] ∧
        0 < (0 : Int) ∧ (0 : Int) ≤ 5) :=
  ⟨c8_low_stock_exact [⟨1, none, 0, 5⟩, ⟨2, none, 3, 5⟩, ⟨3, none, 9, 5⟩]
      ⟨2, none, 3, 5⟩,
    c8_low_stock_exact [⟨1, none, 0, 5⟩, ⟨2, none, 3, 5⟩, ⟨3, none, 9, 5⟩]
      ⟨1, none, 0, 5⟩⟩

/-- Witness for C6: after day-1 T1 (closing 100), two day-2 transactions
of vendor 7 both open at 100, whichever is added first. -/
theorem c6_same_day_opening_witness :
    getOpeningBalance [ledgerT1] 7 172800010 = 100 ∧
    (getOpeningBalance [ledgerT1] 7 172800020 =
        getOpeningBalance [ledgerT1] 7 172800010 ∧
      (∃ e1 e2 : LTxn,
        addTransaction [ledgerT1] 2 7 TType.receivable 40 172800010 =
          some ([ledgerT1] ++ [e1], e1) ∧
        addTransaction ([ledgerT1] ++ [e1]) 3 7 TType.payable 30 172800020 =
          some ([ledgerT1] ++ [e1] ++ [e2], e2) ∧
        e1.openingBalance = getOpeningBalance [ledgerT1] 7 172800010 ∧
        e2.openingBalance = getOpeningBalance [ledgerT1] 7 172800010) ∧
      (∃ e2 e1 : LTxn,
        addTransaction [ledgerT1] 3 7 TType.payable 30 172800020 =
          some ([ledgerT1] ++ [e2], e2) ∧
        addTransaction ([ledgerT1] ++ [e2]) 2 7 TType.receivable 40 172800010 =
          some ([ledgerT1] ++ [e2] ++ [e1], e1) ∧
        e2.openingBalance = getOpeningBalance [ledgerT1] 7 172800010 ∧
        e1.openingBalance = getOpeningBalance [ledgerT1] 7 172800010)) :=
  ⟨by decide,
    c6_same_day_opening [ledgerT1] 7 2 3 TType.receivable TType.payable
      40 30 172800010 172800020 (by decide) (by decide) (by decide)⟩
